import Mathlib

/-!
Verification development for the DownloadMusic reconciliation and synthesis
pipeline (`mp3_pipeline.py`, `netease_cover.py`).

The Python sources are shallowly embedded: pure helpers become Lean
functions over `List Nat` (byte lists, every entry a byte value), stateful
procedures become explicit state-passing functions, and external tools
(ffmpeg, ffprobe, the network cover providers) are modelled as oracle
environments whose answers are a function of the inputs the tool is given,
exactly where the Python code treats their answers as opaque data.
Cryptographic hashing (`hashlib.sha1`) is abstracted as a parameter
`H : List Nat → D`: the code only ever builds a message and compares
digests for equality, and every property proved below is stated for an
arbitrary digest function (injectivity is assumed explicitly where a
property needs collision-freeness).
-/

namespace DM

/-! ### Byte-level helpers -/

/-- Decimal ASCII bytes of `n`, the model of Python `str(n).encode("utf-8")`. -/
def decBytes (n : Nat) : List Nat := (Nat.toDigits 10 n).map Char.toNat

/-- The three magic bytes `b"ID3"` opening an ID3v2 header. -/
def id3Magic : List Nat := [73, 68, 51]

/-- The three magic bytes `b"TAG"` opening a trailing ID3v1 block. -/
def tagMagic : List Nat := [84, 65, 71]

/-- Syncsafe 28-bit size from the four size bytes of an ID3v2 header
(`mp3_pipeline.py` lines 268-273). -/
def syncsafe (b6 b7 b8 b9 : Nat) : Nat :=
  (b6 % 128) * 2 ^ 21 + (b7 % 128) * 2 ^ 14 + (b8 % 128) * 2 ^ 7 + b9 % 128

/-! ### Fingerprint engine (`mp3_audio_fingerprint_quick`, lines 259-298)

The file is a byte list.  `mp3Start` / `mp3End` are the bounds of the
audio-payload range the Python code computes; `mp3FpMessage` is the exact
byte sequence fed to `hashlib.sha1` (length prefix, head sample, and a tail
sample when the range is longer than `sample` bytes). -/

/-- Start offset of the audio range: past the ID3v2 region when the file
opens with a well-formed 10-byte `ID3` header, else 0. -/
def mp3Start (bytes : List Nat) : Nat :=
  let header := bytes.take 10
  if header.length = 10 ∧ header.take 3 = id3Magic then
    10 + syncsafe (header.getD 6 0) (header.getD 7 0) (header.getD 8 0) (header.getD 9 0)
  else 0

/-- End offset of the audio range: the file size, minus 128 when the last
128 bytes start with `TAG` (an ID3v1 block). -/
def mp3End (bytes : List Nat) : Nat :=
  let size := bytes.length
  if 128 ≤ size ∧ (bytes.drop (size - 128)).take 3 = tagMagic then size - 128 else size

/-- The byte message hashed by `mp3_audio_fingerprint_quick`: after the
start/end computation (with the `start >= end` reset to the whole file),
the decimal length of the range, then `sample` bytes read at `start`, then,
when the range exceeds `sample`, `sample` bytes read at `max start (e-sample)`.
Note the reads are reads of the *file* at those offsets (Python `f.read`),
capped by end-of-file but not by `e`. -/
def mp3FpMessage (bytes : List Nat) (sample : Nat) : List Nat :=
  let s0 := mp3Start bytes
  let e0 := mp3End bytes
  let s := if e0 ≤ s0 then 0 else s0
  let e := if e0 ≤ s0 then bytes.length else e0
  let head := (bytes.drop s).take sample
  let msg := decBytes (e - s) ++ head
  if sample < e - s then msg ++ (bytes.drop (max s (e - sample))).take sample else msg

/-- `mp3_audio_fingerprint_quick` with the sha1 digest abstracted as `H`.
The Python function returns `""` on any I/O failure; failure-free byte
input is total, so the sentinel appears only in `file_fingerprint_quick`. -/
def mp3_audio_fingerprint_quick {D : Type} (H : List Nat → D)
    (bytes : List Nat) (sample : Nat := 65536) : D :=
  H (mp3FpMessage bytes sample)

/-- A file as seen by `file_fingerprint_quick`: whether its path ends in
`.mp3` (lower-cased suffix check) and its bytes; `none` bytes model a
`stat`/`open`/`read` that raises, which the Python code turns into the
empty sentinel digest. -/
structure SrcFile where
  isMp3 : Bool
  bytes : Option (List Nat)
deriving DecidableEq, Repr

/-- Message hashed by the generic (non-mp3) branch of
`file_fingerprint_quick` (lines 305-319): decimal size, head sample, and a
tail sample when the size exceeds `sample`. -/
def genFpMessage (bs : List Nat) (sample : Nat) : List Nat :=
  let msg := decBytes bs.length ++ bs.take sample
  if sample < bs.length then msg ++ (bs.drop (bs.length - sample)).take sample else msg

/-- `file_fingerprint_quick` (lines 301-321) with sha1 abstracted as `H`.
`none` is the empty sentinel `""` returned on I/O failure; a real sha1 hex
digest is never empty, so Python's truthiness test `if fp1` is `isSome`. -/
def file_fingerprint_quick {D : Type} (H : List Nat → D)
    (f : SrcFile) (sample : Nat := 65536) : Option D :=
  if f.isMp3 then
    match f.bytes with
    | none => none
    | some bs => some (mp3_audio_fingerprint_quick H bs sample)
  else
    match f.bytes with
    | none => none
    | some bs => some (H (genFpMessage bs sample))

/-! ### MP4 integrity validation (`is_mp4_ok`, lines 1012-1050)

The file at the probed path is `Option Mp4File`: `none` means the path does
not exist.  An `Mp4File` carries its byte size and the outcome of probing
its content with ffprobe — the probe outcome is a deterministic attribute
of the bytes on disk.  `ProbeRes.fail` collapses every way the probe step
can fail (non-zero exit, empty stdout, JSON parse error); `parsed` carries
whether an audio / a video stream was reported and the parsed duration
(`none` for a missing or float-unparsable duration field). -/

inductive ProbeRes
  | fail
  | parsed (hasAudio hasVideo : Bool) (duration : Option ℚ)
deriving DecidableEq, Repr

structure Mp4File where
  size : Nat
  probe : ProbeRes
deriving DecidableEq, Repr

/-- `is_mp4_ok`: exists, at least 1024 bytes, probe parses, has both an
audio and a video stream, and duration > 0.1. -/
def is_mp4_ok : Option Mp4File → Bool
  | none => false
  | some f =>
    if f.size < 1024 then false
    else
      match f.probe with
      | .fail => false
      | .parsed a v d =>
        a && v && (match d with | none => false | some q => decide ((1 : ℚ)/10 < q))

/-! ### MP4 synthesis (`gen_mp4_with_cover_jpg`, lines 854-1009)

Only the state of the output path `out_mp4` is modelled (the subtitle
temp-file bookkeeping touches other paths and does not feed back into the
output file).  Each ffmpeg invocation is an oracle event `FfmpegRun`:
the process exit code as seen through `run_cmd_bytes` (124 = timeout) and
the file the invocation leaves at the output path (`none` = no file).
`env k` is the outcome of the k-th invocation of the run. -/

structure FfmpegRun where
  rc : Int
  leaves : Option Mp4File

inductive EncStatus | ok | error | timeout
deriving DecidableEq, Repr

def ffmpeg_timeout_retries : Nat := 1
def ffmpeg_cpu_retries : Nat := 1

/-- `_try_ffmpeg` (lines 926-949): up to `attempts` invocations; each
iteration first unlinks any existing output, then runs ffmpeg.  Exit 0
returns `"ok"`, a timeout (124) retries, any other exit returns `"error"`
immediately; exhausting the loop returns `"timeout"`.  Returns the status,
the resulting file at the output path, and the next oracle index. -/
def try_ffmpeg (env : Nat → FfmpegRun) :
    Nat → Nat → Option Mp4File → EncStatus × Option Mp4File × Nat
  | 0, k, fs => (.timeout, fs, k)
  | a + 1, k, _fs =>
    let r := env k
    if r.rc = 0 then (.ok, r.leaves, k + 1)
    else if r.rc = 124 then try_ffmpeg env a (k + 1) r.leaves
    else (.error, r.leaves, k + 1)

/-- `_encode_with_codec_fallback` (lines 958-966): try the requested codec;
on repeated timeout with GPU requested, retry on the CPU codec. -/
def encode_with_codec_fallback (env : Nat → FfmpegRun) (use_gpu : Bool)
    (k : Nat) (fs : Option Mp4File) : EncStatus × Option Mp4File × Nat :=
  let r := try_ffmpeg env ffmpeg_timeout_retries k fs
  if r.1 = .timeout ∧ use_gpu then try_ffmpeg env ffmpeg_cpu_retries r.2.2 r.2.1
  else r

/-- `gen_mp4_with_cover_jpg`, restricted to the output-path state.
`hasSub` is whether a subtitle filter was built (the `.lrc`/`.srt`
bookkeeping).  Returns the Python return value and the file left at
`out_mp4`. -/
def gen_mp4_with_cover_jpg (env : Nat → FfmpegRun)
    (dry_run overwrite use_gpu hasSub : Bool)
    (fs0 : Option Mp4File) : Bool × Option Mp4File :=
  if dry_run then (true, fs0)
  else if fs0.isSome ∧ ¬overwrite ∧ is_mp4_ok fs0 then (true, fs0)
  else
    let r1 := encode_with_codec_fallback env use_gpu 0 fs0
    let r2 := if r1.1 ≠ .ok ∧ hasSub then
        encode_with_codec_fallback env use_gpu r1.2.2 r1.2.1
      else r1
    let fs2 := r2.2.1
    if r2.1 ≠ .ok then (false, fs2)
    else if (match fs2 with | none => true | some f => f.size = 0 : Bool) then (false, fs2)
    else if ¬ is_mp4_ok fs2 then (false, none)
    else (fs2.isSome && is_mp4_ok fs2, fs2)

/-! ### Path reconciler (`safe_rename`, lines 395-425)

Paths are parent directory, stem and suffix; `Path.resolve` is modelled as
the identity (no symlinks in the model), so the Python
`src.resolve() == dst.resolve()` check is plain equality.  The filesystem
is a finite association list from paths to nodes; a node is a regular file
(with its bytes, `none` = unreadable) or a directory. -/

structure MyPath where
  parent : String
  stem : String
  sfx : String
deriving DecidableEq, Repr

/-- `p.suffix.lower() == ".mp3"` (ASCII lower-casing of the suffix). -/
def pathIsMp3 (p : MyPath) : Bool :=
  p.sfx.toLower = ".mp3"

inductive FsNode
  | file (bytes : Option (List Nat))
  | directory
deriving DecidableEq, Repr

abbrev Fs := List (MyPath × FsNode)

def fsFind : Fs → MyPath → Option FsNode
  | [], _ => none
  | (q, n) :: rest, p => if q = p then some n else fsFind rest p

def fsExists (fs : Fs) (p : MyPath) : Bool := (fsFind fs p).isSome

def fsErase (fs : Fs) (p : MyPath) : Fs := fs.filter (fun e => e.1 ≠ p)

def fsInsert (fs : Fs) (p : MyPath) (n : FsNode) : Fs := (p, n) :: fsErase fs p

/-- `file_fingerprint_quick` applied to the file at a path. -/
def fpAt {D : Type} (H : List Nat → D) (fs : Fs) (p : MyPath) : Option D :=
  match fsFind fs p with
  | some (.file bs) => file_fingerprint_quick H ⟨pathIsMp3 p, bs⟩
  | _ => none

/-- `p.is_file()` in the model. -/
def isFileAt (fs : Fs) (p : MyPath) : Bool :=
  match fsFind fs p with
  | some (.file _) => true
  | _ => false

/-- `base.with_name(f"{base.stem}__{i}{base.suffix}")`. -/
def withSuffixIdx (base : MyPath) (i : Nat) : MyPath :=
  { base with stem := base.stem ++ "__" ++ Nat.repr i }

/-- The `while dst.exists()` loop of `safe_rename` (lines 417-420): starting
from `cur` (initially the original `dst`) and counter `i` (initially 1),
step to `base__i` while the current candidate exists.  The Python loop is
unbounded; the model carries fuel, which `safe_rename` sets high enough
that it is never exhausted on a finite filesystem (proved below). -/
def findFreeGo (fs : Fs) (base : MyPath) : Nat → MyPath → Nat → MyPath
  | 0, cur, _ => cur
  | fuel + 1, cur, i =>
    if fsExists fs cur then findFreeGo fs base fuel (withSuffixIdx base i) (i + 1)
    else cur

def findFreeDst (fs : Fs) (base : MyPath) : MyPath :=
  findFreeGo fs base (fs.length + 2) base 1

inductive REv
  | dedup
  | skip
  | renamed (dst : MyPath)
deriving DecidableEq, Repr

/-- `safe_rename` (lines 395-425).  Returns `none` when the Python call
would raise an uncaught exception (only `src.rename(dst)` on a missing
`src` can; the `unlink` failure is caught).  Otherwise returns the Python
boolean result, the new filesystem, and the reported event. -/
def safe_rename {D : Type} [DecidableEq D] (H : List Nat → D) (fs : Fs)
    (src dst : MyPath) (dry_run force_suffix_on_conflict : Bool) :
    Option (Bool × Fs × List REv) :=
  if src = dst then some (false, fs, [])
  else if fsExists fs dst then
    if ¬force_suffix_on_conflict then
      if isFileAt fs src ∧ isFileAt fs dst then
        let fp1 := fpAt H fs src
        let fp2 := fpAt H fs dst
        if fp1.isSome ∧ fp1 = fp2 then
          some (true, if dry_run then fs else fsErase fs src, [.dedup])
        else some (false, fs, [.skip])
      else some (false, fs, [.skip])
    else
      let dst2 := findFreeDst fs dst
      if dry_run then some (true, fs, [.renamed dst2])
      else
        match fsFind fs src with
        | none => none
        | some n => some (true, fsInsert (fsErase fs src) dst2 n, [.renamed dst2])
  else
    if dry_run then some (true, fs, [.renamed dst])
    else
      match fsFind fs src with
      | none => none
      | some n => some (true, fsInsert (fsErase fs src) dst n, [.renamed dst])

/-! ### Cover resolver (`prepare_cover_for_dir` and helpers, lines 532-786)

Image files are abstract contents with their tool-observable attributes:
whether the file is non-empty, the format its magic bytes declare
(`detect_image_format`), the format ffprobe reports for it
(`probe_image_format`, already mapped through `mjpeg`/`jpeg` → `jpg`;
`none` = probe failure or an unrecognized codec), and whether a full
ffmpeg decode of it succeeds.  All are deterministic attributes of the
bytes on disk.  An album directory's cover state tracks the three cover
paths the resolver touches (`Cover.jpg`, `Cover.png`, `Cover_fixed.jpg`),
the APIC payload of the first embedded-cover track
(`pick_cover_source_mp3`; `none` = no track carries a cover), and whether
artist+album tags are available for an online fetch.  Every mutation the
resolver performs is recorded in a log; writes are modelled as succeeding,
and a *failed* download or re-encode is modelled as leaving the target
unchanged (no claim below depends on the partial bytes such a failure may
leave). -/

inductive ImgFmt | png | jpg
deriving DecidableEq, Repr

structure Img where
  sizePos : Bool
  magic : Option ImgFmt
  probeFmt : Option ImgFmt
  decodable : Bool
deriving DecidableEq, Repr

/-- The cover paths inside one album directory. -/
inductive CPath | jpg | png | fixed
deriving DecidableEq, Repr

/-- The image format the file *name* declares. -/
def cpathFmt : CPath → ImgFmt
  | .jpg => .jpg
  | .png => .png
  | .fixed => .jpg

structure CoverDir where
  jpg : Option Img
  png : Option Img
  fixedJpg : Option Img
  apicSrc : Option Img
  tagsOk : Bool
deriving DecidableEq, Repr

def getF (st : CoverDir) : CPath → Option Img
  | .jpg => st.jpg
  | .png => st.png
  | .fixed => st.fixedJpg

def setF (st : CoverDir) : CPath → Option Img → CoverDir
  | .jpg, v => { st with jpg := v }
  | .png, v => { st with png := v }
  | .fixed, v => { st with fixedJpg := v }

/-- Mutations of the album directory performed by the resolver. -/
inductive Mut
  | write (p : CPath)
  | renameCover (src dst : CPath)
  | unlinkCover (p : CPath)
  | writeApicAll
deriving DecidableEq, Repr

/-- `pick_cover_file` (lines 532-537): `Cover.jpg` preferred over
`Cover.png`. -/
def pick_cover_file (st : CoverDir) : Option CPath :=
  if st.jpg.isSome then some .jpg
  else if st.png.isSome then some .png
  else none

/-- `is_image_decodable` (lines 602-616): exists, non-empty, and ffmpeg
decodes it. -/
def is_image_decodable : Option Img → Bool
  | none => false
  | some i => i.sizePos && i.decodable

/-- `extract_apic_to_jpg` (lines 512-529) with an APIC payload present
(`apicSrc` is `some`, so the frame lookup succeeds): writes the payload
bytes to `out` and reports success iff they are non-empty. -/
def extract_apic_to_jpg (st : CoverDir) (apic : Img) (out : CPath) :
    CoverDir × Bool × List Mut :=
  (setF st out (some apic), apic.sizePos, [.write out])

/-- `normalize_cover_extension` (lines 573-599): determine the true format
from magic bytes, falling back to ffprobe; if the name's extension
disagrees, rename to the matching `Cover.*` name unless that name is
already taken (in which case the existing file is returned unchanged). -/
def normalize_cover_extension (st : CoverDir) (cp : CPath) :
    CoverDir × CPath × List Mut :=
  let img := getF st cp
  let fmt0 := match img with | none => none | some i => i.magic
  let fmt := match fmt0 with
    | none => (match img with | none => none | some i => i.probeFmt)
    | some f => some f
  match fmt with
  | some .png =>
    if cpathFmt cp ≠ ImgFmt.png then
      if (getF st .png).isSome then (st, .png, [])
      else (setF (setF st .png img) cp none, .png, [.renameCover cp .png])
    else (st, cp, [])
  | some .jpg =>
    if cpathFmt cp ≠ ImgFmt.jpg then
      if (getF st .jpg).isSome then (st, .jpg, [])
      else (setF (setF st .jpg img) cp none, .jpg, [.renameCover cp .jpg])
    else (st, cp, [])
  | none => (st, cp, [])

/-- `fix_cover_image` (lines 619-643): re-encode the cover through ffmpeg
into `Cover_fixed.jpg` and move it over the original.  `repair` is the
deterministic outcome of the re-encode on the given content (`none` =
non-zero exit or empty output). -/
def fix_cover_image (repair : Img → Option Img) (st : CoverDir) (cp : CPath) :
    CoverDir × Bool × List Mut :=
  match getF st cp with
  | none => (st, false, [])
  | some img =>
    match repair img with
    | none => (st, false, [])
    | some r =>
      (setF (setF st .fixed none) cp (some r), true,
        [.write .fixed, .unlinkCover cp, .renameCover .fixed cp])

/-- Oracle environment of `prepare_cover_for_dir`: the outcome of the k-th
`fetch_album_cover` call of the run (`some img` = the call returned `True`
having written `img` to `Cover.jpg`), and the re-encode outcome used by
`fix_cover_image`. -/
structure CoverEnv where
  fetch : Nat → Option Img
  repair : Img → Option Img

/-- `_try_fetch_online_cover` (lines 669-687) at the granularity used by
`prepare_cover_for_dir`: gated on the flag and on artist+album tags, calls
`fetch_album_cover` into `Cover.jpg`, validates decodability, then embeds
the fetched cover into every track.  Returns the new state, the fetched
path, the mutation log, and the next fetch-oracle index. -/
def try_fetch_online_cover (env : CoverEnv) (allow : Bool) (st : CoverDir)
    (k : Nat) : CoverDir × Option CPath × List Mut × Nat :=
  if ¬allow then (st, none, [], k)
  else if ¬st.tagsOk then (st, none, [], k)
  else
    match env.fetch k with
    | none => (st, none, [], k + 1)
    | some img =>
      let st2 := setF st .jpg (some img)
      if ¬ is_image_decodable (some img) then (st2, none, [.write .jpg], k + 1)
      else (st2, some .jpg, [.write .jpg, .writeApicAll], k + 1)

structure PrepResult where
  st : CoverDir
  ret : Option CPath
  log : List Mut
deriving DecidableEq, Repr

/-- `prepare_cover_for_dir` (lines 653-786).  The `dry_run` parameter is
accepted exactly as in the source, which never consults it. -/
def prepare_cover_for_dir (env : CoverEnv) (st0 : CoverDir) (dry_run : Bool)
    (allow_online_fetch : Bool := true) : PrepResult := Id.run do
  let _ := dry_run
  let mut st := st0
  let mut log : List Mut := []
  let mut k : Nat := 0
  let cover_src := st0.apicSrc
  let mut cover_file := (pick_cover_file st0).getD .jpg
  let cover_locked := (getF st0 cover_file).isSome && cover_src.isNone
  match cover_src with
  | some apic =>
    let (st1, ok, l1) := extract_apic_to_jpg st apic cover_file
    st := st1
    log := log ++ l1
    if !ok then
      if !(getF st cover_file).isSome then
        let (st2, fetched, l2, k2) := try_fetch_online_cover env allow_online_fetch st k
        st := st2
        log := log ++ l2
        k := k2
        match fetched with
        | none => return ⟨st, none, log⟩
        | some cp => cover_file := cp
  | none =>
    if !cover_locked then
      if !(getF st cover_file).isSome then
        let (st2, fetched, l2, k2) := try_fetch_online_cover env allow_online_fetch st k
        st := st2
        log := log ++ l2
        k := k2
        match fetched with
        | none => return ⟨st, none, log⟩
        | some cp => cover_file := cp
  cover_file := (pick_cover_file st).getD .jpg
  if !(getF st cover_file).isSome then
    match cover_src with
    | none => return ⟨st, none, log⟩
    | some apic =>
      let (st1, ok, l1) := extract_apic_to_jpg st apic cover_file
      st := st1
      log := log ++ l1
      if !ok then
        return ⟨st, none, log⟩
  if !cover_locked then
    let (st1, cf1, l1) := normalize_cover_extension st cover_file
    st := st1
    cover_file := cf1
    log := log ++ l1
    if (getF st cover_file).isSome && !(is_image_decodable (getF st cover_file)) then
      let altCover : Option CPath :=
        match cover_file with
        | .jpg => some .png
        | .png => some .jpg
        | .fixed => none
      let altOk := match altCover with
        | some alt => (getF st alt).isSome && is_image_decodable (getF st alt)
        | none => false
      if altOk then
        cover_file := altCover.getD cover_file
      else
        let (st1, ok, l1) := fix_cover_image env.repair st cover_file
        st := st1
        log := log ++ l1
        if !ok then
          match cover_src with
          | some apic =>
            st := setF st cover_file none
            log := log ++ [.unlinkCover cover_file]
            let (st1, ok2, l1) := extract_apic_to_jpg st apic .jpg
            st := st1
            log := log ++ l1
            if ok2 && is_image_decodable (getF st .jpg) then
              cover_file := .jpg
            else
              let (st2, fetched, l2, k2) := try_fetch_online_cover env allow_online_fetch st k
              st := st2
              log := log ++ l2
              k := k2
              match fetched with
              | none => return ⟨st, none, log⟩
              | some cp => cover_file := cp
          | none =>
            let (st2, fetched, l2, k2) := try_fetch_online_cover env allow_online_fetch st k
            st := st2
            log := log ++ l2
            k := k2
            match fetched with
            | none => return ⟨st, none, log⟩
            | some cp => cover_file := cp
  else
    if (getF st cover_file).isSome && !(is_image_decodable (getF st cover_file)) then
      return ⟨st, none, log⟩
  return ⟨st, if (getF st cover_file).isSome then some cover_file else none, log⟩

/-! ### Online cover providers (`netease_cover.py`)

The network is an oracle: each request's outcome is a function of the
query.  `mbSearch b` is the MusicBrainz release search (`b` = whether the
query includes the artist term), returning the first release id or `none`
for any failure (non-200 status, exception, no results).  `caa rid` is the
Cover Art Archive image download for a release: `some img` when the image
was fetched and written non-empty, `none` for any failure.  `douban b` is
the Douban search returning the extracted cover URL, and `dl url` the
image download.  A failed download is modelled as leaving the target
unchanged. -/

structure NetEnv where
  mbSearch : Bool → Option String
  caa : String → Option Img
  douban : Bool → Option String
  dl : String → Option Img

/-- Provider requests, in the order they were attempted. -/
inductive Prov
  | mbSearchA
  | mbSearchAlb
  | caaFetch (rid : String)
  | doubanA
  | doubanAlb
  | doubanDl (url : String)
deriving DecidableEq, Repr

/-- `_try_fetch_cover_musicbrainz` (lines 104-122): query with artist when
present, download from CAA on a hit; on any failure retry with the
album-only query. -/
def try_fetch_cover_musicbrainz (env : NetEnv) (artist album : String) :
    Bool × Option Img × List Prov :=
  if album = "" then (false, none, [])
  else
    let first :=
      if artist ≠ "" then
        match env.mbSearch true with
        | some rid =>
          (match env.caa rid with
           | some img => (true, some img, [Prov.mbSearchA, Prov.caaFetch rid])
           | none => (false, none, [Prov.mbSearchA, Prov.caaFetch rid]))
        | none => (false, none, ([Prov.mbSearchA] : List Prov))
      else (false, none, [])
    if first.1 then first
    else
      match env.mbSearch false with
      | some rid =>
        (match env.caa rid with
         | some img => (true, some img, first.2.2 ++ [Prov.mbSearchAlb, Prov.caaFetch rid])
         | none => (false, none, first.2.2 ++ [Prov.mbSearchAlb, Prov.caaFetch rid]))
      | none => (false, none, first.2.2 ++ [Prov.mbSearchAlb])

/-- `_try_fetch_cover_douban` (lines 142-165): search (with or without the
artist term), extract a cover URL, download it. -/
def try_fetch_cover_douban (env : NetEnv) (withArtist : Bool) :
    Bool × Option Img × List Prov :=
  let tag := if withArtist then Prov.doubanA else Prov.doubanAlb
  match env.douban withArtist with
  | none => (false, none, [tag])
  | some url =>
    match env.dl url with
    | some img => (true, some img, [tag, Prov.doubanDl url])
    | none => (false, none, [tag, Prov.doubanDl url])

/-- `fetch_album_cover` (lines 168-185): MusicBrainz/CAA first, then
Douban with "artist album", then Douban with the album alone. -/
def fetch_album_cover (env : NetEnv) (artist album : String) :
    Bool × Option Img × List Prov :=
  if album = "" then (false, none, [])
  else
    let mb := try_fetch_cover_musicbrainz env artist album
    if mb.1 then mb
    else
      let d1 := if artist ≠ "" then try_fetch_cover_douban env true
                else (false, none, [])
      if d1.1 then (true, d1.2.1, mb.2.2 ++ d1.2.2)
      else
        let d2 := try_fetch_cover_douban env false
        (d2.1, d2.2.1, mb.2.2 ++ d1.2.2 ++ d2.2.2)

/-- `_try_fetch_online_cover` (`mp3_pipeline.py` lines 669-687) with the
provider chain of `fetch_album_cover` inlined: the decodability check is
applied to the file the chain downloaded.  Returns the accepted image and
the provider requests attempted. -/
def try_fetch_online_cover_net (env : NetEnv) (allow : Bool)
    (artist album : String) : Option Img × List Prov :=
  if ¬allow then (none, [])
  else if artist = "" ∨ album = "" then (none, [])
  else
    let f := fetch_album_cover env artist album
    match f.2.1 with
    | some img =>
      if is_image_decodable (some img) then (some img, f.2.2) else (none, f.2.2)
    | none => (none, f.2.2)

/-! #### Spec-side provider chain (for the amended C6)

Modelled from the amended claim wording: one ordered list of independent
provider attempts, first successful download wins, every per-provider
failure cascades to the next attempt, and a single decodability check is
applied to the winner — its failure fails the whole fetch without trying
further providers. -/

def specStepMbA (env : NetEnv) (artist : String) : Option Img × List Prov :=
  if artist = "" then (none, [])
  else
    match env.mbSearch true with
    | none => (none, [Prov.mbSearchA])
    | some rid => (env.caa rid, [Prov.mbSearchA, Prov.caaFetch rid])

def specStepMbAlb (env : NetEnv) : Option Img × List Prov :=
  match env.mbSearch false with
  | none => (none, [Prov.mbSearchAlb])
  | some rid => (env.caa rid, [Prov.mbSearchAlb, Prov.caaFetch rid])

def specStepDouban (env : NetEnv) (withArtist : Bool) (artist : String) :
    Option Img × List Prov :=
  if withArtist ∧ artist = "" then (none, [])
  else
    let tag := if withArtist then Prov.doubanA else Prov.doubanAlb
    match env.douban withArtist with
    | none => (none, [tag])
    | some url => (env.dl url, [tag, Prov.doubanDl url])

/-- First-success cascade over an ordered list of provider attempts. -/
def specChain : List (Option Img × List Prov) → Option Img × List Prov
  | [] => (none, [])
  | s :: rest =>
    match s.1 with
    | some img => (some img, s.2)
    | none =>
      let r := specChain rest
      (r.1, s.2 ++ r.2)

def fetch_album_cover_spec (env : NetEnv) (artist album : String) :
    Option Img × List Prov :=
  if album = "" then (none, [])
  else
    specChain [specStepMbA env artist, specStepMbAlb env,
      specStepDouban env true artist, specStepDouban env false artist]

def try_fetch_spec (env : NetEnv) (allow : Bool) (artist album : String) :
    Option Img × List Prov :=
  if ¬allow ∨ artist = "" ∨ album = "" then (none, [])
  else
    let c := fetch_album_cover_spec env artist album
    match c.1 with
    | some img =>
      (if is_image_decodable (some img) then some img else none, c.2)
    | none => (none, c.2)

/-! ### Lyric-to-subtitle cue computation (`ensure_srt_for_lrc`, lines
1104-1129)

`items` is the parsed, time-sorted `(timestamp, text)` list produced by
`parse_lrc_lines`; timestamps are rationals (Python floats built from
`minutes*60 + seconds + centiseconds/100` and the constants 0.01, 3.0,
2.0, all exactly representable).  `srtCues` is the cue list the loop at
lines 1115-1122 emits, as (start, end, text) triples. -/

def srtCues (items : List (ℚ × String)) : List (ℚ × ℚ × String) :=
  (List.range items.length).map fun j =>
    let it := items.getD j (0, "")
    let e0 := if j + 1 < items.length then (items.getD (j + 1) (0, "")).1 - 1/100
              else it.1 + 3
    (it.1, (if e0 ≤ it.1 then it.1 + 2 else e0), it.2)

/-! ### Filename sanitization (`sanitize_windows_name`, lines 387-392)

Python `re.sub(r"\s+", " ", s)` over a `str` and `str.strip()` use the
Unicode whitespace class; `pySpace` lists it explicitly. -/

def pySpace (c : Char) : Bool :=
  c == ' ' || c == '\t' || c == '\n' || c == '\r' ||
  c.toNat == 11 || c.toNat == 12 ||
  (28 ≤ c.toNat && c.toNat ≤ 31) || c.toNat == 0x85 || c.toNat == 0xa0 ||
  c.toNat == 0x1680 || (0x2000 ≤ c.toNat && c.toNat ≤ 0x200a) ||
  c.toNat == 0x2028 || c.toNat == 0x2029 || c.toNat == 0x202f ||
  c.toNat == 0x205f || c.toNat == 0x3000

/-- "No run of more than one whitespace character": adjacent characters
are never both whitespace. -/
def wsPair (a b : Char) : Prop :=
  ¬(pySpace a = true ∧ pySpace b = true)

instance (a b : Char) : Decidable (wsPair a b) :=
  inferInstanceAs (Decidable (¬(pySpace a = true ∧ pySpace b = true)))

/-- Executable check that no two adjacent characters are both whitespace. -/
def noTwoWsB : List Char → Bool
  | [] => true
  | [_] => true
  | a :: b :: rest => !(pySpace a && pySpace b) && noTwoWsB (b :: rest)

/-- The characters of `WIN_INVALID` (line 66). -/
def winInvalidChar (c : Char) : Bool :=
  c == '<' || c == '>' || c == ':' || c == '"' || c == '/' ||
  c == '\\' || c == '|' || c == '?' || c == '*'

/-- `re.sub(r"\s+", " ", ·)`: each maximal whitespace run becomes one
space. -/
def collapseWs : List Char → List Char
  | [] => []
  | [c] => if pySpace c then [' '] else [c]
  | c :: c2 :: cs =>
    if pySpace c then
      if pySpace c2 then collapseWs (c2 :: cs)
      else ' ' :: collapseWs (c2 :: cs)
    else c :: collapseWs (c2 :: cs)

def dropTrailing (p : Char → Bool) (l : List Char) : List Char :=
  (l.reverse.dropWhile p).reverse

/-- `str.strip()`. -/
def stripWs (l : List Char) : List Char :=
  dropTrailing pySpace (l.dropWhile pySpace)

/-- `str.rstrip(".")`. -/
def rstripDots (l : List Char) : List Char :=
  dropTrailing (fun c => c == '.') l

/-- `sanitize_windows_name` (lines 387-392). -/
def sanitize_windows_name (s : String) : String :=
  let l1 := s.data.filter (fun c => !winInvalidChar c)
  let l2 := l1.filter (fun c => !(c == '!' || c == '！'))
  let l3 := collapseWs l2
  let l4 := stripWs l3
  let l5 := rstripDots l4
  if l5 = [] then "Unnamed" else String.mk l5

/-! #### Injectivity of decimal rendering

`withSuffixIdx base` is injective because `Nat.repr` is; this is what makes
the disambiguator loop reach a free path on a finite filesystem. -/

/-- Reference rendering of the decimal digits of `n`, most significant
first. -/
def digitsRepr (n : Nat) : List Char :=
  if n = 0 then ['0'] else ((Nat.digits 10 n).map Nat.digitChar).reverse

/-- `Nat.toDigitsCore` against `Nat.digits`: with enough fuel, the core
renderer produces `digitsRepr`. -/
theorem toDigitsCore_eq (fuel : Nat) :
    ∀ n ds, n < fuel → Nat.toDigitsCore 10 fuel n ds = digitsRepr n ++ ds := by
  induction fuel with
  | zero => omega
  | succ f ih =>
    intro n ds hf
    rw [Nat.toDigitsCore]
    show (if n / 10 = 0 then Nat.digitChar (n % 10) :: ds
      else Nat.toDigitsCore 10 f (n / 10) (Nat.digitChar (n % 10) :: ds)) =
      digitsRepr n ++ ds
    by_cases hdiv : n / 10 = 0
    · rw [if_pos hdiv]
      have hn10 : n < 10 := by omega
      by_cases h0 : n = 0
      · subst h0
        simp only [digitsRepr, if_pos rfl]
        rfl
      · rw [digitsRepr, if_neg h0,
          Nat.digits_def' (by norm_num : 1 < 10) (Nat.pos_of_ne_zero h0), hdiv]
        simp [Nat.mod_eq_of_lt hn10]
    · rw [if_neg hdiv]
      have h0 : n ≠ 0 := by
        intro h; rw [h] at hdiv; simp at hdiv
      have hlt : n / 10 < f := by
        have := Nat.div_lt_self (Nat.pos_of_ne_zero h0) (by norm_num : 1 < 10)
        omega
      rw [ih (n / 10) (Nat.digitChar (n % 10) :: ds) hlt]
      rw [digitsRepr, if_neg hdiv]
      conv_rhs => rw [digitsRepr, if_neg h0,
        Nat.digits_def' (by norm_num : 1 < 10) (Nat.pos_of_ne_zero h0)]
      simp

/-- Decoding map for rendered digit chars. -/
def undigit (c : Char) : Nat := c.toNat - 48

theorem undigit_digitChar {d : Nat} (hd : d < 10) :
    undigit (Nat.digitChar d) = d := by
  interval_cases d <;> rfl

theorem map_digitChar_digits_eq {m : Nat} :
    ((Nat.digits 10 m).map Nat.digitChar).map undigit = Nat.digits 10 m := by
  rw [List.map_map]
  refine (List.map_congr_left ?_).trans (List.map_id _)
  intro d hd
  exact undigit_digitChar (Nat.digits_lt_base (by norm_num) hd)

theorem map_digitChar_eq_single_zero {n : Nat}
    (h : (Nat.digits 10 n).map Nat.digitChar = ['0']) : n = 0 := by
  have h3 : Nat.digits 10 n = [0] := by
    have := congrArg (List.map undigit) h
    rw [map_digitChar_digits_eq] at this
    simpa [undigit] using this
  have h4 := Nat.ofDigits_digits 10 n
  rw [h3] at h4
  simpa [Nat.ofDigits] using h4.symm

theorem digitsRepr_injective : Function.Injective digitsRepr := by
  intro m n h
  by_cases hm : m = 0 <;> by_cases hn : n = 0
  · omega
  · exfalso
    rw [digitsRepr, if_pos hm, digitsRepr, if_neg hn] at h
    have h2 : (Nat.digits 10 n).map Nat.digitChar = ['0'] := by
      have := congrArg List.reverse h
      simpa using this.symm
    exact hn (map_digitChar_eq_single_zero h2)
  · exfalso
    rw [digitsRepr, if_neg hm, digitsRepr, if_pos hn] at h
    have h2 : (Nat.digits 10 m).map Nat.digitChar = ['0'] := by
      have := congrArg List.reverse h.symm
      simpa using this.symm
    exact hm (map_digitChar_eq_single_zero h2)
  · rw [digitsRepr, if_neg hm, digitsRepr, if_neg hn] at h
    have h2 := congrArg List.reverse h
    simp only [List.reverse_reverse] at h2
    have h3 := congrArg (List.map undigit) h2
    rw [map_digitChar_digits_eq, map_digitChar_digits_eq] at h3
    exact Nat.digits.injective 10 h3

theorem repr_eq_digitsRepr (n : Nat) : Nat.repr n = (digitsRepr n).asString := by
  rw [Nat.repr, Nat.toDigits, toDigitsCore_eq (n + 1) n [] (by omega)]
  simp

theorem reprNat_injective : Function.Injective Nat.repr := by
  intro m n h
  rw [repr_eq_digitsRepr, repr_eq_digitsRepr] at h
  have h2 : digitsRepr m = digitsRepr n := by
    simpa [List.asString] using congrArg String.data h
  exact digitsRepr_injective h2

theorem length_reprNat_pos (i : Nat) : 0 < (Nat.repr i).length := by
  rw [repr_eq_digitsRepr]
  show 0 < (digitsRepr i).length
  rw [digitsRepr]
  by_cases h0 : i = 0
  · simp [h0]
  · rw [if_neg h0]
    have hne : Nat.digits 10 i ≠ [] := Nat.digits_ne_nil_iff_ne_zero.mpr h0
    cases hd : Nat.digits 10 i with
    | nil => exact absurd hd hne
    | cons a l => simp [hd]

theorem withSuffixIdx_injective (base : MyPath) :
    Function.Injective (withSuffixIdx base) := by
  intro i j h
  have hs : base.stem ++ "__" ++ Nat.repr i = base.stem ++ "__" ++ Nat.repr j := by
    simpa [withSuffixIdx] using congrArg MyPath.stem h
  have hd : (base.stem ++ "__").data ++ (Nat.repr i).data =
      (base.stem ++ "__").data ++ (Nat.repr j).data := by
    simpa [String.data_append] using congrArg String.data hs
  have h2 : (Nat.repr i).data = (Nat.repr j).data := List.append_cancel_left hd
  have h3 : Nat.repr i = Nat.repr j := by
    rcases hri : Nat.repr i with ⟨d1⟩
    rcases hrj : Nat.repr j with ⟨d2⟩
    rw [hri, hrj] at h2
    simp only at h2
    exact congrArg String.mk h2
  exact reprNat_injective h3

theorem withSuffixIdx_ne_base (base : MyPath) (i : Nat) :
    withSuffixIdx base i ≠ base := by
  intro h
  have hs : base.stem ++ "__" ++ Nat.repr i = base.stem := by
    simpa [withSuffixIdx] using congrArg MyPath.stem h
  have hlen := congrArg String.length hs
  rw [String.length_append, String.length_append] at hlen
  have h2 : ("__" : String).length = 2 := rfl
  have := length_reprNat_pos i
  omega

/-! ## Claim C10 -/

/-- C10: `is_mp4_ok` returns false for a missing file and for any file
below 1024 bytes regardless of the probe outcome, and conversely a passing
file exists with at least 1024 bytes. -/
theorem C10_is_mp4_ok_size_gate :
    is_mp4_ok none = false ∧
    (∀ f : Mp4File, f.size < 1024 → is_mp4_ok (some f) = false) ∧
    (∀ o : Option Mp4File, is_mp4_ok o = true → ∃ f, o = some f ∧ 1024 ≤ f.size) := by
  refine ⟨rfl, ?_, ?_⟩
  · intro f h
    simp [is_mp4_ok, h]
  · intro o h
    match o with
    | none => simp [is_mp4_ok] at h
    | some f =>
      refine ⟨f, rfl, ?_⟩
      by_contra hlt
      rw [is_mp4_ok, if_pos (by omega)] at h
      exact Bool.false_ne_true h

theorem C10_is_mp4_ok_size_gate_witness :
    (500 < 1024 ∧ is_mp4_ok (some ⟨500, .parsed true true (some 1)⟩) = false) ∧
    (is_mp4_ok (some ⟨2048, .parsed true true (some 1)⟩) = true ∧
      ∃ f, (some ⟨2048, ProbeRes.parsed true true (some 1)⟩ : Option Mp4File) = some f ∧
        1024 ≤ f.size) :=
  ⟨⟨by decide, C10_is_mp4_ok_size_gate.2.1 _ (by decide)⟩,
   ⟨by norm_num [is_mp4_ok],
    C10_is_mp4_ok_size_gate.2.2 _ (by norm_num [is_mp4_ok])⟩⟩

/-! ## Claim C1 (counterexample part)

An ffmpeg invocation that fails with a non-zero exit code can leave a
partial file at the output path; `gen_mp4_with_cover_jpg` returns `False`
on that path without deleting it, so the output path is left holding a
file that fails `is_mp4_ok`. -/

/-- C1 fails as stated: with `dry_run = false`, a single failing ffmpeg
run that leaves a 5000-byte unparsable file at the output path makes the
call return `False` while the file remains and fails the validator. -/
theorem C1_counterexample :
    gen_mp4_with_cover_jpg (fun _ => ⟨1, some ⟨5000, .fail⟩⟩) false false false false none
      = (false, some ⟨5000, .fail⟩) ∧
    is_mp4_ok (some ⟨5000, .fail⟩) = false := by
  constructor
  · rfl
  · rfl

/-! ## Claim C4

`prepare_cover_for_dir` accepts `dry_run` but never consults it: invoked
with `dry_run = true` on a directory whose first track carries an embedded
APIC cover and which has no cover file, it still writes `Cover.jpg`. -/

/-- C4: with `dry_run = true`, the cover-extraction write is performed all
the same (the mutation log is the `Cover.jpg` write), contradicting the
no-mutation dry-run contract. -/
theorem C4_dry_run_mutates :
    (prepare_cover_for_dir ⟨fun _ => none, fun _ => none⟩
      ⟨none, none, none, some ⟨true, some .jpg, some .jpg, true⟩, true⟩ true).log
      = [.write .jpg] ∧
    (prepare_cover_for_dir ⟨fun _ => none, fun _ => none⟩
      ⟨none, none, none, some ⟨true, some .jpg, some .jpg, true⟩, true⟩ true).log ≠ [] := by
  exact ⟨rfl, by decide⟩

/-! ## Claim C6 (counterexample part) -/

/-- C6 fails as stated: MusicBrainz/CAA wins the download but the image
fails the decodability check; the whole fetch fails (`none`) and Douban —
which would have produced a decodable image (`dl` returns a decodable
one) — is never attempted: the trace stops at the CAA fetch. -/
theorem C6_counterexample :
    try_fetch_online_cover_net
      ⟨fun b => if b then some "r1" else none,
       fun _ => some ⟨true, some .jpg, some .jpg, false⟩,
       fun _ => some "u",
       fun _ => some ⟨true, some .jpg, some .jpg, true⟩⟩
      true "a" "b"
      = (none, [Prov.mbSearchA, Prov.caaFetch "r1"]) := by
  rfl

/-! ## Claim C9 (counterexample part) -/

/-- C9 fails as stated: `sanitize_windows_name "a ." = "a "` ends in a
whitespace character, and applying the function again gives `"a"`, so the
function is not idempotent. -/
theorem C9_counterexample :
    sanitize_windows_name "a ." = "a " ∧
    sanitize_windows_name (sanitize_windows_name "a .") = "a" ∧
    sanitize_windows_name (sanitize_windows_name "a .") ≠ sanitize_windows_name "a ." := by
  refine ⟨by decide, by decide, by decide⟩

/-! ## Claim C3 (counterexample part) -/

set_option maxRecDepth 20000

/-- C3 fails as stated: two mp3 files with the byte-identical 4-byte audio
payload `[0,0,0,0]` but different trailing ID3v1 `TAG` blocks get
different fingerprints, because the 64 KiB head sample reads past the end
of the short payload into the trailer.  Digest function: the identity on
messages (so equality of digests is equality of hashed messages; the real
sha1 hashes exactly these distinct messages). -/
theorem C3_counterexample :
    file_fingerprint_quick (fun l => l)
        ⟨true, some ([0, 0, 0, 0] ++ (tagMagic ++ List.replicate 125 0))⟩ ≠
      file_fingerprint_quick (fun l => l)
        ⟨true, some ([0, 0, 0, 0] ++ (tagMagic ++ (1 :: List.replicate 124 0)))⟩ := by
  decide

/-! ## Claim C8 -/

theorem srtCues_getD (items : List (ℚ × String)) (j : Nat) (hj : j < items.length) :
    (srtCues items).getD j (0, 0, "") =
      ((items.getD j (0, "")).1,
        (if (if j + 1 < items.length then (items.getD (j + 1) (0, "")).1 - 1/100
             else (items.getD j (0, "")).1 + 3) ≤ (items.getD j (0, "")).1
         then (items.getD j (0, "")).1 + 2
         else (if j + 1 < items.length then (items.getD (j + 1) (0, "")).1 - 1/100
               else (items.getD j (0, "")).1 + 3)),
        (items.getD j (0, "")).2) := by
  unfold srtCues
  rw [List.getD_eq_getElem _ _ (by simpa using hj)]
  simp

/-- C8: for a non-empty cue list, each non-last cue ends at the next cue's
start minus 0.01 (floored to its own start plus 2 when that is not
strictly later), the last cue ends at its start plus 3, and every emitted
cue has end strictly greater than start. -/
theorem C8_srt_cue_times (items : List (ℚ × String)) (hne : items ≠ []) :
    (srtCues items).length = items.length ∧
    (∀ j, j + 1 < items.length →
      ((srtCues items).getD j (0, 0, "")).2.1 =
        (if (items.getD (j + 1) (0, "")).1 - 1/100 ≤ (items.getD j (0, "")).1
         then (items.getD j (0, "")).1 + 2
         else (items.getD (j + 1) (0, "")).1 - 1/100)) ∧
    ((srtCues items).getD (items.length - 1) (0, 0, "")).2.1 =
      (items.getD (items.length - 1) (0, "")).1 + 3 ∧
    (∀ c ∈ srtCues items, c.1 < c.2.1) := by
  have hlen : 0 < items.length := List.length_pos.mpr hne
  refine ⟨by simp [srtCues], ?_, ?_, ?_⟩
  · intro j hj
    rw [srtCues_getD items j (by omega)]
    simp only [if_pos hj]
  · rw [srtCues_getD items (items.length - 1) (by omega)]
    have hcond : ¬(items.length - 1 + 1 < items.length) := by omega
    simp only [if_neg hcond]
    rw [if_neg (by linarith)]
  · intro c hc
    unfold srtCues at hc
    simp only [List.mem_map, List.mem_range] at hc
    obtain ⟨j, hj, hc⟩ := hc
    subst hc
    set s := (items.getD j (0, "")).1 with hs
    set e0 := (if j + 1 < items.length then (items.getD (j + 1) (0, "")).1 - 1/100
      else s + 3) with he
    show s < if e0 ≤ s then s + 2 else e0
    by_cases h : e0 ≤ s
    · rw [if_pos h]
      linarith
    · rw [if_neg h]
      exact not_le.mp h

theorem C8_srt_cue_times_witness :
    ([((0 : ℚ), "x"), (1/200, "y"), (10, "z")] : List (ℚ × String)) ≠ [] ∧
    (∀ c ∈ srtCues [((0 : ℚ), "x"), (1/200, "y"), (10, "z")], c.1 < c.2.1) :=
  ⟨by decide, (C8_srt_cue_times [((0 : ℚ), "x"), (1/200, "y"), (10, "z")]
    (by decide)).2.2.2⟩

/-! ## Claim C2 -/

theorem fsFind_fsErase_self (fs : Fs) (p : MyPath) :
    fsFind (fsErase fs p) p = none := by
  induction fs with
  | nil => rfl
  | cons e rest ih =>
    obtain ⟨q, n⟩ := e
    by_cases hq : q = p
    · simpa [fsErase, List.filter, hq] using ih
    · simpa [fsErase, List.filter, hq, fsFind] using ih

/-- C2: with `dst` existing and `force_suffix_on_conflict = false`,
`safe_rename` never raises, deletes `src` only when the two quick
fingerprints are non-empty (`some`) and equal, and whenever either
fingerprint is the I/O-failure sentinel the call leaves the filesystem
unchanged and reports a skip. -/
theorem C2_dedup_safety {D : Type} [DecidableEq D] (H : List Nat → D) (fs : Fs)
    (src dst : MyPath) (dry_run : Bool) (sn dn : FsNode)
    (hsrc : fsFind fs src = some sn) (hdst : fsFind fs dst = some dn)
    (hne : src ≠ dst) :
    ∃ b fs' evs, safe_rename H fs src dst dry_run false = some (b, fs', evs) ∧
      (fsFind fs' src = none →
        dry_run = false ∧ ∃ d, fpAt H fs src = some d ∧ fpAt H fs dst = some d) ∧
      ((fpAt H fs src = none ∨ fpAt H fs dst = none) →
        b = false ∧ fs' = fs ∧ evs = [.skip]) := by
  have hex : fsExists fs dst = true := by simp [fsExists, hdst]
  rw [safe_rename, if_neg hne, if_pos hex, if_pos (by simp)]
  by_cases hfile : isFileAt fs src = true ∧ isFileAt fs dst = true
  · rw [if_pos hfile]
    by_cases hfp : (fpAt H fs src).isSome = true ∧ fpAt H fs src = fpAt H fs dst
    · rw [if_pos hfp]
      obtain ⟨d, hd⟩ := Option.isSome_iff_exists.mp hfp.1
      refine ⟨true, _, _, rfl, ?_, ?_⟩
      · intro hgone
        by_cases hdr : dry_run = true
        · rw [if_pos hdr] at hgone
          rw [hsrc] at hgone
          cases hgone
        · have hdr' : dry_run = false := by
            cases dry_run
            · rfl
            · exact absurd rfl hdr
          exact ⟨hdr', d, hd, by rw [← hfp.2, hd]⟩
      · intro hnone
        rcases hnone with hn | hn
        · rw [hd] at hn; cases hn
        · rw [← hfp.2, hd] at hn; cases hn
    · rw [if_neg hfp]
      refine ⟨false, fs, [.skip], rfl, ?_, fun _ => ⟨rfl, rfl, rfl⟩⟩
      intro hgone
      rw [hsrc] at hgone
      cases hgone
  · rw [if_neg hfile]
    refine ⟨false, fs, [.skip], rfl, ?_, fun _ => ⟨rfl, rfl, rfl⟩⟩
    intro hgone
    rw [hsrc] at hgone
    cases hgone

theorem C2_dedup_safety_witness :
    (fsFind [(⟨"d", "a", ".mp3"⟩, FsNode.file none),
        (⟨"d", "b", ".mp3"⟩, FsNode.file (some [1]))] ⟨"d", "a", ".mp3"⟩
      = some (FsNode.file none)) ∧
    (⟨"d", "a", ".mp3"⟩ : MyPath) ≠ ⟨"d", "b", ".mp3"⟩ ∧
    (∃ b fs' evs,
      safe_rename (fun l => l)
        [(⟨"d", "a", ".mp3"⟩, FsNode.file none),
         (⟨"d", "b", ".mp3"⟩, FsNode.file (some [1]))]
        ⟨"d", "a", ".mp3"⟩ ⟨"d", "b", ".mp3"⟩ false false = some (b, fs', evs) ∧
      (fsFind fs' ⟨"d", "a", ".mp3"⟩ = none →
        false = false ∧ ∃ d, fpAt (fun l => l)
          [(⟨"d", "a", ".mp3"⟩, FsNode.file none),
           (⟨"d", "b", ".mp3"⟩, FsNode.file (some [1]))] ⟨"d", "a", ".mp3"⟩ = some d ∧
          fpAt (fun l => l)
            [(⟨"d", "a", ".mp3"⟩, FsNode.file none),
             (⟨"d", "b", ".mp3"⟩, FsNode.file (some [1]))] ⟨"d", "b", ".mp3"⟩ = some d) ∧
      ((fpAt (fun l => l)
          [(⟨"d", "a", ".mp3"⟩, FsNode.file none),
           (⟨"d", "b", ".mp3"⟩, FsNode.file (some [1]))] ⟨"d", "a", ".mp3"⟩ = none ∨
        fpAt (fun l => l)
          [(⟨"d", "a", ".mp3"⟩, FsNode.file none),
           (⟨"d", "b", ".mp3"⟩, FsNode.file (some [1]))] ⟨"d", "b", ".mp3"⟩ = none) →
        b = false ∧ fs' = [(⟨"d", "a", ".mp3"⟩, FsNode.file none),
          (⟨"d", "b", ".mp3"⟩, FsNode.file (some [1]))] ∧ evs = [.skip])) :=
  ⟨by decide, by decide,
    C2_dedup_safety (fun l => l) _ _ _ false (FsNode.file none)
      (FsNode.file (some [1])) (by decide) (by decide) (by decide)⟩

/-! ## Claim C1 (amended theorem) -/

theorem try_ffmpeg_clean (env : Nat → FfmpegRun)
    (hclean : ∀ k, (env k).rc ≠ 0 → (env k).leaves = none) :
    ∀ a k fs, ((try_ffmpeg env (a + 1) k fs).1 ≠ .ok →
        (try_ffmpeg env (a + 1) k fs).2.1 = none) ∧
      ((try_ffmpeg env (a + 1) k fs).1 = .ok →
        ∃ j, (env j).rc = 0 ∧ (try_ffmpeg env (a + 1) k fs).2.1 = (env j).leaves) := by
  intro a
  induction a with
  | zero =>
    intro k fs
    rw [try_ffmpeg]
    by_cases h0 : (env k).rc = 0
    · rw [if_pos h0]
      exact ⟨fun h => absurd rfl h, fun _ => ⟨k, h0, rfl⟩⟩
    · rw [if_neg h0]
      by_cases h124 : (env k).rc = 124
      · rw [if_pos h124]
        rw [try_ffmpeg]
        exact ⟨fun _ => hclean k h0, fun h => by cases h⟩
      · rw [if_neg h124]
        exact ⟨fun _ => hclean k h0, fun h => by cases h⟩
  | succ a ih =>
    intro k fs
    rw [try_ffmpeg]
    by_cases h0 : (env k).rc = 0
    · rw [if_pos h0]
      exact ⟨fun h => absurd rfl h, fun _ => ⟨k, h0, rfl⟩⟩
    · rw [if_neg h0]
      by_cases h124 : (env k).rc = 124
      · rw [if_pos h124]
        exact ih (k + 1) (env k).leaves
      · rw [if_neg h124]
        exact ⟨fun _ => hclean k h0, fun h => by cases h⟩

theorem encode_clean (env : Nat → FfmpegRun)
    (hclean : ∀ k, (env k).rc ≠ 0 → (env k).leaves = none) (use_gpu : Bool)
    (k : Nat) (fs : Option Mp4File) :
    ((encode_with_codec_fallback env use_gpu k fs).1 ≠ .ok →
      (encode_with_codec_fallback env use_gpu k fs).2.1 = none) ∧
    ((encode_with_codec_fallback env use_gpu k fs).1 = .ok →
      ∃ j, (env j).rc = 0 ∧
        (encode_with_codec_fallback env use_gpu k fs).2.1 = (env j).leaves) := by
  rw [encode_with_codec_fallback]
  split
  · exact try_ffmpeg_clean env hclean 0 _ _
  · exact try_ffmpeg_clean env hclean 0 k fs

/-- C1 amended: with `dry_run = false`, provided every failing or
timed-out ffmpeg invocation leaves no file at the output path and every
nominally successful invocation leaves a non-empty file, the output path
after the call either does not exist or passes `is_mp4_ok`; and a `True`
return always means the remaining file passes `is_mp4_ok`. -/
theorem C1_amended_no_partial (env : Nat → FfmpegRun)
    (overwrite use_gpu hasSub : Bool) (fs0 : Option Mp4File)
    (hclean : ∀ k, (env k).rc ≠ 0 → (env k).leaves = none)
    (hnz : ∀ k f, (env k).rc = 0 → (env k).leaves = some f → 0 < f.size) :
    ((gen_mp4_with_cover_jpg env false overwrite use_gpu hasSub fs0).2 = none ∨
      is_mp4_ok (gen_mp4_with_cover_jpg env false overwrite use_gpu hasSub fs0).2 = true) ∧
    ((gen_mp4_with_cover_jpg env false overwrite use_gpu hasSub fs0).1 = true →
      is_mp4_ok (gen_mp4_with_cover_jpg env false overwrite use_gpu hasSub fs0).2 = true) := by
  simp only [gen_mp4_with_cover_jpg, Bool.false_eq_true, if_false]
  by_cases hskip : fs0.isSome = true ∧ ¬overwrite = true ∧ is_mp4_ok fs0 = true
  · rw [if_pos hskip]
    exact ⟨Or.inr hskip.2.2, fun _ => hskip.2.2⟩
  · rw [if_neg hskip]
    set r2 := (if (encode_with_codec_fallback env use_gpu 0 fs0).1 ≠ EncStatus.ok ∧ hasSub = true
      then encode_with_codec_fallback env use_gpu
        (encode_with_codec_fallback env use_gpu 0 fs0).2.2
        (encode_with_codec_fallback env use_gpu 0 fs0).2.1
      else encode_with_codec_fallback env use_gpu 0 fs0) with hr2
    have hprop : (r2.1 ≠ .ok → r2.2.1 = none) ∧
        (r2.1 = .ok → ∃ j, (env j).rc = 0 ∧ r2.2.1 = (env j).leaves) := by
      rw [hr2]
      split
      · exact encode_clean env hclean use_gpu _ _
      · exact encode_clean env hclean use_gpu 0 fs0
    by_cases hok : r2.1 = EncStatus.ok
    · rw [if_neg (by simpa using hok)]
      obtain ⟨j, hj0, hleaves⟩ := hprop.2 hok
      match hfs : r2.2.1 with
      | none => simp
      | some f =>
        have hsz : 0 < f.size := hnz j f hj0 (by rw [← hleaves, hfs])
        rw [if_neg (by simp; omega)]
        by_cases hval : is_mp4_ok (some f) = true
        · rw [if_neg (by simpa using hval)]
          simp [hval]
        · rw [if_pos (by simpa using hval)]
          simp
    · rw [if_pos (by simpa using hok)]
      simp [hprop.1 hok]


theorem C1_amended_no_partial_witness :
    ((gen_mp4_with_cover_jpg (fun _ => ⟨0, some ⟨2048, .parsed true true (some 1)⟩⟩)
        false false false false none).2 = none ∨
      is_mp4_ok (gen_mp4_with_cover_jpg (fun _ => ⟨0, some ⟨2048, .parsed true true (some 1)⟩⟩)
        false false false false none).2 = true) ∧
    ((gen_mp4_with_cover_jpg (fun _ => ⟨0, some ⟨2048, .parsed true true (some 1)⟩⟩)
        false false false false none).1 = true →
      is_mp4_ok (gen_mp4_with_cover_jpg (fun _ => ⟨0, some ⟨2048, .parsed true true (some 1)⟩⟩)
        false false false false none).2 = true) :=
  C1_amended_no_partial (fun _ => ⟨0, some ⟨2048, .parsed true true (some 1)⟩⟩)
    false false false none
    (fun _ h => absurd rfl h)
    (fun _ f _ hf => by injection hf with h2; rw [← h2]; decide)

/-! ## Claim C5 -/

theorem findFreeGo_of_not_exists (fs : Fs) (base : MyPath) (fuel : Nat)
    (cur : MyPath) (i : Nat) (h : fsExists fs cur = false) :
    findFreeGo fs base fuel cur i = cur := by
  cases fuel with
  | zero => rfl
  | succ f => rw [findFreeGo, if_neg (by simp [h])]

theorem findFreeGo_spec (fs : Fs) (base : MyPath) : ∀ fuel i cur,
    (∃ j, i ≤ j ∧ j < i + fuel ∧ fsExists fs (withSuffixIdx base j) = false) →
    fsExists fs cur = true →
    ∃ k, i ≤ k ∧ fsExists fs (withSuffixIdx base k) = false ∧
      findFreeGo fs base fuel cur i = withSuffixIdx base k ∧
      ∀ j, i ≤ j → j < k → fsExists fs (withSuffixIdx base j) = true := by
  intro fuel
  induction fuel with
  | zero =>
    intro i cur h _
    obtain ⟨j, hj1, hj2, _⟩ := h
    omega
  | succ f ih =>
    intro i cur h hcur
    rw [findFreeGo, if_pos (by simp [hcur])]
    by_cases hx : fsExists fs (withSuffixIdx base i) = true
    · obtain ⟨j, hj1, hj2, hj3⟩ := h
      have hji : j ≠ i := by
        intro he
        rw [he, hx] at hj3
        cases hj3
      obtain ⟨k, hk1, hk2, hk3, hk4⟩ := ih (i + 1) (withSuffixIdx base i)
        ⟨j, by omega, by omega, hj3⟩ hx
      refine ⟨k, by omega, hk2, hk3, ?_⟩
      intro j2 h1 h2
      rcases Nat.eq_or_lt_of_le h1 with he | hlt
      · rw [← he]
        exact hx
      · exact hk4 j2 hlt h2
    · have hx' : fsExists fs (withSuffixIdx base i) = false := by
        cases hfe : fsExists fs (withSuffixIdx base i)
        · rfl
        · exact absurd hfe hx
      rw [findFreeGo_of_not_exists fs base f _ (i + 1) hx']
      exact ⟨i, le_refl i, hx', rfl, fun j h1 h2 => by omega⟩

theorem fsExists_mem_keys (fs : Fs) (p : MyPath) (h : fsExists fs p = true) :
    p ∈ fs.map Prod.fst := by
  induction fs with
  | nil => simp [fsExists, fsFind] at h
  | cons e rest ih =>
    obtain ⟨q, n⟩ := e
    by_cases hq : q = p
    · simp [hq]
    · rw [fsExists, fsFind, if_neg hq] at h
      simp only [List.map_cons, List.mem_cons]
      exact Or.inr (ih h)

theorem exists_free_idx (fs : Fs) (base : MyPath) :
    ∃ j, 1 ≤ j ∧ j < 1 + (fs.length + 2) ∧
      fsExists fs (withSuffixIdx base j) = false := by
  by_contra hall
  push_neg at hall
  have hall' : ∀ j, 1 ≤ j → j < fs.length + 3 →
      fsExists fs (withSuffixIdx base j) = true := by
    intro j h1 h2
    cases hfe : fsExists fs (withSuffixIdx base j)
    · exact absurd hfe (hall j h1 (by omega))
    · rfl
  set cand := (List.Ico 1 (fs.length + 3)).map (withSuffixIdx base) with hcand
  have hnodup : cand.Nodup :=
    List.Nodup.map (withSuffixIdx_injective base) (List.Ico.nodup _ _)
  have hsub : cand ⊆ fs.map Prod.fst := by
    intro p hp
    rw [hcand, List.mem_map] at hp
    obtain ⟨j, hj, rfl⟩ := hp
    rw [List.Ico.mem] at hj
    exact fsExists_mem_keys fs _ (hall' j hj.1 hj.2)
  have hlen : cand.length = fs.length + 2 := by
    rw [hcand, List.length_map, List.Ico.length]
    omega
  have hc1 : cand.toFinset.card = fs.length + 2 := by
    rw [List.toFinset_card_of_nodup hnodup, hlen]
  have hc2 : cand.toFinset ⊆ (fs.map Prod.fst).toFinset := by
    intro x hx
    rw [List.mem_toFinset] at hx ⊢
    exact hsub hx
  have hc3 := Finset.card_le_card hc2
  have hc4 : (fs.map Prod.fst).toFinset.card ≤ fs.length := by
    calc (fs.map Prod.fst).toFinset.card ≤ (fs.map Prod.fst).length :=
          List.toFinset_card_le _
      _ = fs.length := List.length_map _ _
  omega

/-- C5: `safe_rename` with `dry_run = false` satisfies the claimed case
analysis: same path is a no-op returning `False`; a missing destination
moves the file with no content check; an existing destination with
`force_suffix_on_conflict = true` moves the file to `dst` suffixed with
the first free numeric disambiguator `__k` (every smaller index being
taken), with no fingerprint comparison and no deletion. -/
theorem C5_safe_rename_cases {D : Type} [DecidableEq D] (H : List Nat → D)
    (fs : Fs) (src dst : MyPath) (force : Bool) :
    (src = dst → safe_rename H fs src dst false force = some (false, fs, [])) ∧
    (∀ n, src ≠ dst → fsFind fs src = some n → fsExists fs dst = false →
      safe_rename H fs src dst false force =
        some (true, fsInsert (fsErase fs src) dst n, [.renamed dst])) ∧
    (∀ n, src ≠ dst → fsFind fs src = some n → fsExists fs dst = true →
      force = true →
      ∃ k, 1 ≤ k ∧ fsExists fs (withSuffixIdx dst k) = false ∧
        (∀ j, 1 ≤ j → j < k → fsExists fs (withSuffixIdx dst j) = true) ∧
        safe_rename H fs src dst false force =
          some (true, fsInsert (fsErase fs src) (withSuffixIdx dst k) n,
            [.renamed (withSuffixIdx dst k)])) := by
  refine ⟨?_, ?_, ?_⟩
  · intro he
    rw [safe_rename, if_pos he]
  · intro n hne hsrc hdst
    rw [safe_rename, if_neg hne, if_neg (by simp [hdst]), if_neg (by simp), hsrc]
  · intro n hne hsrc hdst hforce
    subst hforce
    obtain ⟨k, hk1, hk2, hk3, hk4⟩ := findFreeGo_spec fs dst (fs.length + 2) 1 dst
      (by
        obtain ⟨j, h1, h2, h3⟩ := exists_free_idx fs dst
        exact ⟨j, h1, h2, h3⟩)
      hdst
    refine ⟨k, hk1, hk2, hk4, ?_⟩
    rw [safe_rename, if_neg hne, if_pos (by simp [hdst]), if_neg (by simp),
      if_neg (by simp)]
    rw [findFreeDst, hk3, hsrc]

theorem C5_safe_rename_cases_witness :
    ((⟨"d", "a", ".mp3"⟩ : MyPath) ≠ ⟨"d", "b", ".mp3"⟩ ∧
      fsFind [(⟨"d", "a", ".mp3"⟩, FsNode.file none),
        (⟨"d", "b", ".mp3"⟩, FsNode.file none),
        (⟨"d", "b__1", ".mp3"⟩, FsNode.file none)] ⟨"d", "a", ".mp3"⟩
        = some (FsNode.file none) ∧
      fsExists [(⟨"d", "a", ".mp3"⟩, FsNode.file none),
        (⟨"d", "b", ".mp3"⟩, FsNode.file none),
        (⟨"d", "b__1", ".mp3"⟩, FsNode.file none)] ⟨"d", "b", ".mp3"⟩ = true) ∧
    (∃ k, 1 ≤ k ∧
      fsExists [(⟨"d", "a", ".mp3"⟩, FsNode.file none),
        (⟨"d", "b", ".mp3"⟩, FsNode.file none),
        (⟨"d", "b__1", ".mp3"⟩, FsNode.file none)]
        (withSuffixIdx ⟨"d", "b", ".mp3"⟩ k) = false ∧
      (∀ j, 1 ≤ j → j < k →
        fsExists [(⟨"d", "a", ".mp3"⟩, FsNode.file none),
          (⟨"d", "b", ".mp3"⟩, FsNode.file none),
          (⟨"d", "b__1", ".mp3"⟩, FsNode.file none)]
          (withSuffixIdx ⟨"d", "b", ".mp3"⟩ j) = true) ∧
      safe_rename (fun l => l) [(⟨"d", "a", ".mp3"⟩, FsNode.file none),
          (⟨"d", "b", ".mp3"⟩, FsNode.file none),
          (⟨"d", "b__1", ".mp3"⟩, FsNode.file none)]
          ⟨"d", "a", ".mp3"⟩ ⟨"d", "b", ".mp3"⟩ false true =
        some (true, fsInsert (fsErase [(⟨"d", "a", ".mp3"⟩, FsNode.file none),
            (⟨"d", "b", ".mp3"⟩, FsNode.file none),
            (⟨"d", "b__1", ".mp3"⟩, FsNode.file none)] ⟨"d", "a", ".mp3"⟩)
          (withSuffixIdx ⟨"d", "b", ".mp3"⟩ k) (FsNode.file none),
          [.renamed (withSuffixIdx ⟨"d", "b", ".mp3"⟩ k)])) :=
  ⟨⟨by decide, by decide, by decide⟩,
    (C5_safe_rename_cases (fun l => l) _ _ _ true).2.2 (FsNode.file none)
      (by decide) (by decide) (by decide) rfl⟩


/-! ## Claim C6 (amended theorem) -/

theorem douban_eq_spec (env : NetEnv) (w : Bool) (a : String)
    (h : w = true → a ≠ "") :
    try_fetch_cover_douban env w =
      ((specStepDouban env w a).1.isSome, (specStepDouban env w a).1,
        (specStepDouban env w a).2) := by
  have hcond : ¬(w = true ∧ a = "") := fun hc => h hc.1 hc.2
  rw [try_fetch_cover_douban, specStepDouban, if_neg hcond]
  rcases hd : env.douban w with _ | url
  · simp [hd]
  · rcases hdl : env.dl url with _ | img <;> simp [hd, hdl]

theorem mb_eq_spec (env : NetEnv) (a b : String) (hb : b ≠ "") :
    try_fetch_cover_musicbrainz env a b =
      ((specChain [specStepMbA env a, specStepMbAlb env]).1.isSome,
        (specChain [specStepMbA env a, specStepMbAlb env]).1,
        (specChain [specStepMbA env a, specStepMbAlb env]).2) := by
  rw [try_fetch_cover_musicbrainz, if_neg hb]
  by_cases ha : a = ""
  · simp only [ha, ne_eq, not_true_eq_false, if_false, specStepMbA, if_pos rfl]
    rcases h2 : env.mbSearch false with _ | rid
    · simp [specChain, specStepMbAlb, h2]
    · rcases h3 : env.caa rid with _ | img <;>
        simp [specChain, specStepMbAlb, h2, h3]
  · simp only [ne_eq, ha, not_false_eq_true, if_true, specStepMbA, if_neg ha]
    rcases h1 : env.mbSearch true with _ | rid1
    · simp only [h1]
      rcases h2 : env.mbSearch false with _ | rid
      · simp [specChain, specStepMbAlb, h2]
      · rcases h3 : env.caa rid with _ | img <;>
          simp [specChain, specStepMbAlb, h2, h3]
    · rcases h3 : env.caa rid1 with _ | img1
      · simp only [h1, h3]
        rcases h2 : env.mbSearch false with _ | rid
        · simp [specChain, specStepMbAlb, h2, h3]
        · rcases h4 : env.caa rid with _ | img <;>
            simp [specChain, specStepMbAlb, h2, h3, h4]
      · simp [specChain, h1, h3]

theorem fetch_album_cover_eq_spec (env : NetEnv) (a b : String) :
    fetch_album_cover env a b =
      ((fetch_album_cover_spec env a b).1.isSome,
        (fetch_album_cover_spec env a b).1,
        (fetch_album_cover_spec env a b).2) := by
  by_cases hb : b = ""
  · simp [fetch_album_cover, fetch_album_cover_spec, hb]
  · rw [fetch_album_cover, if_neg hb, fetch_album_cover_spec, if_neg hb]
    have hsplit : specChain [specStepMbA env a, specStepMbAlb env,
        specStepDouban env true a, specStepDouban env false a] =
        (match (specChain [specStepMbA env a, specStepMbAlb env]).1 with
         | some img => (some img, (specChain [specStepMbA env a, specStepMbAlb env]).2)
         | none =>
            ((specChain [specStepDouban env true a, specStepDouban env false a]).1,
              (specChain [specStepMbA env a, specStepMbAlb env]).2 ++
                (specChain [specStepDouban env true a, specStepDouban env false a]).2)) := by
      rcases h1 : (specStepMbA env a).1 with _ | i1 <;>
        rcases h2 : (specStepMbAlb env).1 with _ | i2 <;>
          simp [specChain, h1, h2]
    rw [hsplit, mb_eq_spec env a b hb]
    rcases hm : (specChain [specStepMbA env a, specStepMbAlb env]).1 with _ | img
    · simp only [hm, Option.isSome_none, Bool.false_eq_true, if_false]
      by_cases ha : a = ""
      · subst ha
        rw [if_neg (by simp)]
        rw [douban_eq_spec env false "" (by simp)]
        have hd1 : specStepDouban env true "" = (none, []) := by
          rw [specStepDouban, if_pos ⟨rfl, rfl⟩]
        rcases hd : (specStepDouban env false "").1 with _ | img2 <;>
          simp [specChain, hd1, hd]
      · rw [if_pos (show a ≠ "" from ha)]
        rw [douban_eq_spec env true a (fun _ => ha),
          douban_eq_spec env false a (by simp)]
        rcases hd : (specStepDouban env true a).1 with _ | img2
        · rcases hd2 : (specStepDouban env false a).1 with _ | img3 <;>
            simp [specChain, hd, hd2]
        · simp [specChain, hd]
    · simp [hm]

/-- C6 amended: the online cover fetch refines the amended provider-chain
specification: providers are attempted in the fixed order MusicBrainz
(artist+album query, then album-only query, each feeding Cover Art
Archive) then Douban ("artist album", then album alone); every
per-provider failure (search failure, non-200, empty body, parse failure,
failed download) cascades to the next attempt and the first successful
download wins; the decodability check is applied once, to the downloaded
winner, and its failure fails the whole fetch without attempting further
providers. -/
theorem C6_amended_provider_chain (env : NetEnv) (allow : Bool)
    (artist album : String) :
    try_fetch_online_cover_net env allow artist album =
      try_fetch_spec env allow artist album := by
  rw [try_fetch_online_cover_net, try_fetch_spec]
  cases allow with
  | false => simp
  | true =>
    rw [if_neg (show ¬¬(true = true) from not_not_intro rfl)]
    by_cases hempty : artist = "" ∨ album = ""
    · rw [if_pos hempty, if_pos (Or.inr hempty)]
    · rw [if_neg hempty,
        if_neg (show ¬(¬(true = true) ∨ artist = "" ∨ album = "") from by
          rintro (h | h | h)
          · exact h rfl
          · exact hempty (Or.inl h)
          · exact hempty (Or.inr h)),
        fetch_album_cover_eq_spec env artist album]
      rcases hf : (fetch_album_cover_spec env artist album).1 with _ | img
      · simp [hf, hempty]
      · by_cases hdec : is_image_decodable (some img) = true <;>
          simp [hf, hdec, hempty]


/-! ## Claim C7 -/

/-- C7: on an album directory with a pre-existing cover file and no
embedded APIC cover in any track (a "locked" cover), the resolver performs
no mutation whatsoever (state unchanged, empty mutation log) and returns
the cover path exactly when the cover passes the decode check; an
undecodable locked cover makes it return `none` with the file untouched. -/
theorem C7_locked_cover_untouched (env : CoverEnv) (st : CoverDir)
    (dry_run allow : Bool) (hsrc : st.apicSrc = none)
    (hcov : pick_cover_file st ≠ none) :
    (prepare_cover_for_dir env st dry_run allow).st = st ∧
    (prepare_cover_for_dir env st dry_run allow).log = [] ∧
    (prepare_cover_for_dir env st dry_run allow).ret =
      (if is_image_decodable (getF st ((pick_cover_file st).getD .jpg))
       then some ((pick_cover_file st).getD .jpg) else none) := by
  obtain ⟨j, p, fx, a, t⟩ := st
  simp only at hsrc
  subst hsrc
  cases j with
  | none =>
    cases p with
    | none => exact absurd (by rw [pick_cover_file]; simp) hcov
    | some pi =>
      by_cases hdec : is_image_decodable (some pi) = true <;>
        simp [prepare_cover_for_dir, pick_cover_file, getF, Id.run, hdec]
  | some ji =>
    by_cases hdec : is_image_decodable (some ji) = true <;>
      simp [prepare_cover_for_dir, pick_cover_file, getF, Id.run, hdec]


theorem C7_locked_cover_untouched_witness :
    ((⟨some ⟨true, some .jpg, some .jpg, true⟩, none, none, none, true⟩ : CoverDir).apicSrc
      = none ∧
     pick_cover_file ⟨some ⟨true, some .jpg, some .jpg, true⟩, none, none, none, true⟩
      ≠ none) ∧
    ((prepare_cover_for_dir ⟨fun _ => none, fun _ => none⟩
        ⟨some ⟨true, some .jpg, some .jpg, true⟩, none, none, none, true⟩ false true).st =
      ⟨some ⟨true, some .jpg, some .jpg, true⟩, none, none, none, true⟩ ∧
     (prepare_cover_for_dir ⟨fun _ => none, fun _ => none⟩
        ⟨some ⟨true, some .jpg, some .jpg, true⟩, none, none, none, true⟩ false true).log
      = [] ∧
     (prepare_cover_for_dir ⟨fun _ => none, fun _ => none⟩
        ⟨some ⟨true, some .jpg, some .jpg, true⟩, none, none, none, true⟩ false true).ret =
       (if is_image_decodable (getF
            ⟨some ⟨true, some .jpg, some .jpg, true⟩, none, none, none, true⟩
            ((pick_cover_file
              ⟨some ⟨true, some .jpg, some .jpg, true⟩, none, none, none, true⟩).getD .jpg))
        then some ((pick_cover_file
          ⟨some ⟨true, some .jpg, some .jpg, true⟩, none, none, none, true⟩).getD .jpg)
        else none)) :=
  ⟨⟨rfl, by decide⟩,
    C7_locked_cover_untouched ⟨fun _ => none, fun _ => none⟩
      ⟨some ⟨true, some .jpg, some .jpg, true⟩, none, none, none, true⟩ false true rfl
      (by decide)⟩


/-! ## Claim C3 (amended theorem) -/

/-- When the computed audio range is exactly the payload `P` of a file
`T ++ P ++ R` and the payload is at least `sample` bytes long, the hashed
message is a function of the payload alone. -/
theorem mp3FpMessage_structured (T P R : List Nat) (sample : Nat)
    (hstart : mp3Start (T ++ P ++ R) = T.length)
    (hend : mp3End (T ++ P ++ R) = T.length + P.length)
    (hsample : sample ≤ P.length) (hpos : 0 < P.length) :
    mp3FpMessage (T ++ P ++ R) sample =
      decBytes P.length ++ P.take sample ++
        (if sample < P.length then (P.drop (P.length - sample)).take sample
         else []) := by
  have hdrop : (T ++ P ++ R).drop T.length = P ++ R := by
    rw [List.append_assoc, List.drop_left]
  have hnle : ¬(T.length + P.length ≤ T.length) := by omega
  rw [mp3FpMessage]
  simp only [hstart, hend, if_neg hnle]
  have harith : T.length + P.length - T.length = P.length := by omega
  rw [harith, hdrop, List.take_append_of_le_length hsample]
  by_cases hlt : sample < P.length
  · rw [if_pos hlt, if_pos hlt]
    have hmax : max T.length (T.length + P.length - sample) =
        T.length + (P.length - sample) := by omega
    rw [hmax, ← List.drop_drop, hdrop,
      List.drop_append_of_le_length (by omega),
      List.take_append_of_le_length (by
        rw [List.length_drop]
        omega)]
  · rw [if_neg hlt, if_neg hlt, List.append_nil]

/-- C3 amended: provided the audio payload is at least `sample` bytes long
(so the head/tail samples stay inside the payload), two well-formed files
with byte-identical payloads and arbitrary (different) ID3v2 regions and
ID3v1 trailers get the same fingerprint, for any digest function; and for
an injective digest, two such files whose equal-length payloads differ
within the first `sample` bytes get different fingerprints.
Well-formedness means the code's computed range bounds are exactly the
payload bounds, which holds for a correctly sized ID3v2 region and a
128-byte `TAG` trailer (or their absence).  For payloads shorter than
`sample` the property fails: the head sample overruns into the trailer
(see the counterexample). -/
theorem C3_amended_fingerprint_stability {D : Type} (H : List Nat → D)
    (sample : Nat) :
    (∀ T1 P R1 T2 R2 : List Nat,
      mp3Start (T1 ++ P ++ R1) = T1.length →
      mp3End (T1 ++ P ++ R1) = T1.length + P.length →
      mp3Start (T2 ++ P ++ R2) = T2.length →
      mp3End (T2 ++ P ++ R2) = T2.length + P.length →
      sample ≤ P.length → 0 < P.length →
      file_fingerprint_quick H ⟨true, some (T1 ++ P ++ R1)⟩ sample =
        file_fingerprint_quick H ⟨true, some (T2 ++ P ++ R2)⟩ sample) ∧
    (∀ T1 P1 R1 T2 P2 R2 : List Nat, Function.Injective H →
      mp3Start (T1 ++ P1 ++ R1) = T1.length →
      mp3End (T1 ++ P1 ++ R1) = T1.length + P1.length →
      mp3Start (T2 ++ P2 ++ R2) = T2.length →
      mp3End (T2 ++ P2 ++ R2) = T2.length + P2.length →
      sample ≤ P1.length → 0 < P1.length → P1.length = P2.length →
      P1.take sample ≠ P2.take sample →
      file_fingerprint_quick H ⟨true, some (T1 ++ P1 ++ R1)⟩ sample ≠
        file_fingerprint_quick H ⟨true, some (T2 ++ P2 ++ R2)⟩ sample) := by
  constructor
  · intro T1 P R1 T2 R2 h1s h1e h2s h2e hs hp
    show some (H (mp3FpMessage (T1 ++ P ++ R1) sample)) =
      some (H (mp3FpMessage (T2 ++ P ++ R2) sample))
    rw [mp3FpMessage_structured T1 P R1 sample h1s h1e hs hp,
      mp3FpMessage_structured T2 P R2 sample h2s h2e hs hp]
  · intro T1 P1 R1 T2 P2 R2 hinj h1s h1e h2s h2e hs hp hlen hne heq
    have heq2 : some (H (mp3FpMessage (T1 ++ P1 ++ R1) sample)) =
        some (H (mp3FpMessage (T2 ++ P2 ++ R2) sample)) := heq
    have heq3 := hinj (Option.some_injective D heq2)
    rw [mp3FpMessage_structured T1 P1 R1 sample h1s h1e hs hp,
      mp3FpMessage_structured T2 P2 R2 sample h2s h2e (by omega) (by omega)]
      at heq3
    rw [← hlen, List.append_assoc, List.append_assoc] at heq3
    have heq4 := List.append_cancel_left heq3
    have hlen14 : (P1.take sample).length = (P2.take sample).length := by
      rw [List.length_take, List.length_take]
      omega
    exact hne (List.append_inj_left heq4 hlen14)

theorem C3_amended_fingerprint_stability_witness :
    (mp3Start (([] : List Nat) ++ [5, 6] ++ []) = ([] : List Nat).length ∧
      mp3End (([] : List Nat) ++ [5, 6] ++ []) =
        ([] : List Nat).length + ([5, 6] : List Nat).length ∧
      (1 : Nat) ≤ ([5, 6] : List Nat).length ∧
      file_fingerprint_quick (fun l => l) ⟨true, some ([] ++ [5, 6] ++ [])⟩ 1 =
        file_fingerprint_quick (fun l => l) ⟨true, some ([] ++ [5, 6] ++ [])⟩ 1) ∧
    (([5, 6] : List Nat).take 1 ≠ ([6, 6] : List Nat).take 1 ∧
      file_fingerprint_quick (fun l => l) ⟨true, some ([] ++ [5, 6] ++ [])⟩ 1 ≠
        file_fingerprint_quick (fun l => l) ⟨true, some ([] ++ [6, 6] ++ [])⟩ 1) :=
  ⟨⟨by decide, by decide, by decide,
    (C3_amended_fingerprint_stability (fun l : List Nat => l) 1).1
      [] [5, 6] [] [] [] (by decide) (by decide) (by decide) (by decide)
      (by decide) (by decide)⟩,
   ⟨by decide,
    (C3_amended_fingerprint_stability (fun l : List Nat => l) 1).2
      [] [5, 6] [] [] [6, 6] [] (fun a b h => h) (by decide) (by decide)
      (by decide) (by decide) (by decide) (by decide) (by decide) (by decide)⟩⟩


/-! ## Claim C9 (amended theorem) -/

theorem chain'_of_isPrefix {α : Type} {R : α → α → Prop} {l₁ l₂ : List α}
    (h : List.Chain' R l₂) (hp : l₁ <+: l₂) : List.Chain' R l₁ :=
  List.Chain'.prefix h hp

theorem collapseWs_head_space {c : Char} {cs : List Char}
    (h : pySpace c = true) : (collapseWs (c :: cs)).head? = some ' ' := by
  induction cs generalizing c with
  | nil => simp [collapseWs, h]
  | cons c2 cs2 ih =>
    by_cases h2 : pySpace c2 = true
    · simpa [collapseWs, h, h2] using ih h2
    · simp [collapseWs, h, h2]

theorem collapseWs_head_nonspace {c : Char} {cs : List Char}
    (h : pySpace c = false) : (collapseWs (c :: cs)).head? = some c := by
  cases cs with
  | nil => simp [collapseWs, h]
  | cons c2 cs2 => simp [collapseWs, h]

theorem collapseWs_chain (l : List Char) : (collapseWs l).Chain' wsPair := by
  induction l with
  | nil => simp [collapseWs]
  | cons c cs ih =>
    cases cs with
    | nil =>
      by_cases h : pySpace c = true <;> simp [collapseWs, h]
    | cons c2 cs2 =>
      by_cases h : pySpace c = true
      · by_cases h2 : pySpace c2 = true
        · simpa [collapseWs, h, h2] using ih
        · rw [collapseWs, if_pos h, if_neg (by simp [h2])]
          rw [List.chain'_cons']
          refine ⟨?_, ih⟩
          intro b hb
          rw [collapseWs_head_nonspace (by simpa using h2)] at hb
          cases hb
          intro hcon
          exact h2 hcon.2
      · rw [collapseWs, if_neg (by simp [h])]
        rw [List.chain'_cons']
        refine ⟨?_, ih⟩
        intro b hb
        intro hcon
        exact h hcon.1

theorem collapseWs_mem {c : Char} {l : List Char} (h : c ∈ collapseWs l) :
    c ∈ l ∨ c = ' ' := by
  induction l with
  | nil => simp [collapseWs] at h
  | cons a cs ih =>
    cases cs with
    | nil =>
      by_cases ha : pySpace a = true <;> simp [collapseWs, ha] at h
      · exact Or.inr h
      · exact Or.inl (by simp [h])
    | cons c2 cs2 =>
      by_cases ha : pySpace a = true
      · by_cases h2 : pySpace c2 = true
        · rw [collapseWs, if_pos ha, if_pos h2] at h
          rcases ih h with hm | hb
          · exact Or.inl (List.mem_cons_of_mem a hm)
          · exact Or.inr hb
        · rw [collapseWs, if_pos ha, if_neg (by simp [h2])] at h
          rcases List.mem_cons.mp h with hb | hm
          · exact Or.inr hb
          · rcases ih hm with hm2 | hb2
            · exact Or.inl (List.mem_cons_of_mem a hm2)
            · exact Or.inr hb2
      · rw [collapseWs, if_neg (by simp [ha])] at h
        rcases List.mem_cons.mp h with hb | hm
        · exact Or.inl (by simp [hb])
        · rcases ih hm with hm2 | hb2
          · exact Or.inl (List.mem_cons_of_mem a hm2)
          · exact Or.inr hb2

theorem collapseWs_space_blank {c : Char} {l : List Char}
    (h : c ∈ collapseWs l) (hs : pySpace c = true) : c = ' ' := by
  induction l with
  | nil => simp [collapseWs] at h
  | cons a cs ih =>
    cases cs with
    | nil =>
      by_cases ha : pySpace a = true <;> simp [collapseWs, ha] at h
      · exact h
      · rw [h] at hs
        rw [hs] at ha
        exact absurd rfl ha
    | cons c2 cs2 =>
      by_cases ha : pySpace a = true
      · by_cases h2 : pySpace c2 = true
        · rw [collapseWs, if_pos ha, if_pos h2] at h
          exact ih h
        · rw [collapseWs, if_pos ha, if_neg (by simp [h2])] at h
          rcases List.mem_cons.mp h with hb | hm
          · exact hb
          · exact ih hm
      · rw [collapseWs, if_neg (by simp [ha])] at h
        rcases List.mem_cons.mp h with hb | hm
        · rw [hb] at hs
          rw [hs] at ha
          exact absurd rfl ha
        · exact ih hm

theorem collapseWs_eq_self {l : List Char} (hch : l.Chain' wsPair)
    (hbl : ∀ c ∈ l, pySpace c = true → c = ' ') : collapseWs l = l := by
  induction l with
  | nil => rfl
  | cons a cs ih =>
    cases cs with
    | nil =>
      by_cases ha : pySpace a = true
      · rw [collapseWs, if_pos ha, hbl a (by simp) ha]
      · rw [collapseWs, if_neg (by simp [ha])]
    | cons c2 cs2 =>
      have htail : (c2 :: cs2).Chain' wsPair := List.Chain'.tail hch
      have hbl2 : ∀ c ∈ c2 :: cs2, pySpace c = true → c = ' ' := by
        intro c hc
        exact hbl c (List.mem_cons_of_mem a hc)
      by_cases ha : pySpace a = true
      · have hc2 : pySpace c2 = false := by
          have hp := List.chain'_cons.mp hch
          by_contra hcon
          exact hp.1 ⟨ha, by
            cases hfe : pySpace c2
            · exact absurd hfe hcon
            · rfl⟩
        rw [collapseWs, if_pos ha, if_neg (by simp [hc2]), ih htail hbl2,
          hbl a (by simp) ha]
      · rw [collapseWs, if_neg (by simp [ha]), ih htail hbl2]

theorem head?_dropWhile_false {α : Type} (p : α → Bool) (l : List α) (c : α)
    (h : (l.dropWhile p).head? = some c) : p c = false := by
  have h2 := List.head?_dropWhile_not p l
  rw [h] at h2
  exact h2

theorem dropWhile_eq_self_of_head {α : Type} (p : α → Bool) (l : List α)
    (h : ∀ c, l.head? = some c → p c = false) : l.dropWhile p = l := by
  cases l with
  | nil => rfl
  | cons a l2 => simp [List.dropWhile_cons, h a rfl]

theorem dropTrailing_isPrefix (p : Char → Bool) (l : List Char) :
    dropTrailing p l <+: l := by
  have hs := List.dropWhile_suffix p (l := l.reverse)
  have h2 := List.reverse_prefix.mpr hs
  simpa [dropTrailing] using h2

theorem getLast?_dropTrailing_false (p : Char → Bool) (l : List Char) (c : Char)
    (h : (dropTrailing p l).getLast? = some c) : p c = false := by
  rw [dropTrailing, List.getLast?_eq_head?_reverse, List.reverse_reverse] at h
  exact head?_dropWhile_false p l.reverse c h

theorem dropTrailing_eq_self (p : Char → Bool) (l : List Char)
    (h : ∀ c, l.getLast? = some c → p c = false) : dropTrailing p l = l := by
  rw [dropTrailing, dropWhile_eq_self_of_head p l.reverse (by
    intro c hc
    apply h
    rw [List.getLast?_eq_head?_reverse]
    exact hc), List.reverse_reverse]

theorem head?_of_isPrefix {α : Type} {l₁ l₂ : List α} (h : l₁ <+: l₂)
    (hne : l₁ ≠ []) : l₂.head? = l₁.head? := by
  obtain ⟨t, rfl⟩ := h
  cases l₁ with
  | nil => exact absurd rfl hne
  | cons a l => rfl


theorem noTwoWsB_chain : ∀ {l : List Char}, noTwoWsB l = true → l.Chain' wsPair := by
  intro l
  induction l with
  | nil =>
    intro _
    simp
  | cons a cs ih =>
    cases cs with
    | nil =>
      intro _
      simp
    | cons b rest =>
      intro h
      rw [noTwoWsB, Bool.and_eq_true] at h
      rw [List.chain'_cons]
      refine ⟨?_, ih h.2⟩
      intro hcon
      rw [hcon.1, hcon.2] at h
      simpa using h.1



/-- C9 amended: `sanitize_windows_name` always returns a non-empty name
containing none of the forbidden characters `<>:"/\|?*`, `!`, `！`, with
no run of more than one whitespace character, never ending in `'.'`; and
it is idempotent on every input whose sanitized form does not end in a
whitespace character.  (As the counterexample shows, the result can end
in a single space — when the input has trailing dots preceded by a space —
and on exactly those inputs a second application strips further.) -/
theorem C9_amended_sanitize_props (s : String) :
    sanitize_windows_name s ≠ "" ∧
    (∀ c ∈ (sanitize_windows_name s).data,
      winInvalidChar c = false ∧ c ≠ '!' ∧ c ≠ '！') ∧
    (sanitize_windows_name s).data.Chain' wsPair ∧
    (∀ c, (sanitize_windows_name s).data.getLast? = some c → c ≠ '.') ∧
    ((∀ c, (sanitize_windows_name s).data.getLast? = some c →
        pySpace c = false) →
      sanitize_windows_name (sanitize_windows_name s) =
        sanitize_windows_name s) := by
  set l2 := (s.data.filter (fun c => !winInvalidChar c)).filter
    (fun c => !(c == '!' || c == '！')) with hl2
  set l3 := collapseWs l2 with hl3
  set l4 := stripWs l3 with hl4
  set l5 := rstripDots l4 with hl5
  have hsan : sanitize_windows_name s =
      (if l5 = [] then "Unnamed" else String.mk l5) := rfl
  by_cases he : l5 = []
  · rw [hsan, if_pos he]
    refine ⟨by decide, by decide, noTwoWsB_chain (by decide), by decide, fun _ => by decide⟩
  · rw [hsan, if_neg he]
    have hchain3 : l3.Chain' wsPair := collapseWs_chain l2
    have hchainU : (l3.dropWhile pySpace).Chain' wsPair :=
      List.Chain'.suffix hchain3 (List.dropWhile_suffix pySpace)
    have hpre4U : l4 <+: l3.dropWhile pySpace := dropTrailing_isPrefix _ _
    have hchain4 : l4.Chain' wsPair := chain'_of_isPrefix hchainU hpre4U
    have hpre54 : l5 <+: l4 := dropTrailing_isPrefix _ _
    have hchain5 : l5.Chain' wsPair := chain'_of_isPrefix hchain4 hpre54
    have hsub5 : ∀ c ∈ l5, c ∈ l3 := by
      intro c hc
      exact List.dropWhile_subset pySpace
        (List.IsPrefix.subset hpre4U (List.IsPrefix.subset hpre54 hc))
    have hforb : ∀ c ∈ l5, winInvalidChar c = false ∧ c ≠ '!' ∧ c ≠ '！' := by
      intro c hc
      rcases collapseWs_mem (hsub5 c hc) with hm | hb
      · rw [hl2] at hm
        have h2 := List.mem_filter.mp hm
        have h1 := List.mem_filter.mp h2.1
        refine ⟨by simpa using h1.2, ?_, ?_⟩
        · intro hx
          rw [hx] at h2
          simpa using h2.2
        · intro hx
          rw [hx] at h2
          simpa using h2.2
      · rw [hb]
        exact ⟨by decide, by decide, by decide⟩
    have hblank : ∀ c ∈ l5, pySpace c = true → c = ' ' := by
      intro c hc hs2
      exact collapseWs_space_blank (hsub5 c hc) hs2
    have hlastdot : ∀ c, l5.getLast? = some c → c ≠ '.' := by
      intro c hc hdot
      have h2 := getLast?_dropTrailing_false _ l4 c hc
      rw [hdot] at h2
      simp at h2
    refine ⟨?_, ?_, ?_, ?_, ?_⟩
    · intro h
      apply he
      simpa using congrArg String.data h
    · intro c hc
      exact hforb c hc
    · exact hchain5
    · exact hlastdot
    · intro hlastws
      have hf1 : l5.filter (fun c => !winInvalidChar c) = l5 :=
        List.filter_eq_self.mpr (fun c hc => by simp [(hforb c hc).1])
      have hf2 : l5.filter (fun c => !(c == '!' || c == '！')) = l5 :=
        List.filter_eq_self.mpr (fun c hc => by
          have h2 := (hforb c hc).2
          simp only [Bool.not_eq_eq_eq_not, Bool.not_true, Bool.or_eq_false_iff]
          exact ⟨by simpa using h2.1, by simpa using h2.2⟩)
      have hcol : collapseWs l5 = l5 := collapseWs_eq_self hchain5 hblank
      have hhead5 : ∀ c, l5.head? = some c → pySpace c = false := by
        intro c hc
        have hpre : l5 <+: l3.dropWhile pySpace := hpre54.trans hpre4U
        have hh := head?_of_isPrefix hpre he
        exact head?_dropWhile_false pySpace l3 c (by rw [hh, hc])
      have hstr : stripWs l5 = l5 := by
        rw [stripWs, dropWhile_eq_self_of_head _ _ hhead5,
          dropTrailing_eq_self _ _ hlastws]
      have hdots : rstripDots l5 = l5 := by
        rw [rstripDots]
        apply dropTrailing_eq_self
        intro c hc
        have h2 := hlastdot c hc
        simpa using h2
      have hs2 : sanitize_windows_name (String.mk l5) =
          (if rstripDots (stripWs (collapseWs
              ((l5.filter (fun c => !winInvalidChar c)).filter
                (fun c => !(c == '!' || c == '！'))))) = []
           then "Unnamed"
           else String.mk (rstripDots (stripWs (collapseWs
              ((l5.filter (fun c => !winInvalidChar c)).filter
                (fun c => !(c == '!' || c == '！'))))))) := rfl
      rw [hs2, hf1, hf2, hcol, hstr, hdots, if_neg he]

theorem C9_amended_sanitize_props_witness :
    ((∀ c, (sanitize_windows_name "a<>|b!  c..").data.getLast? = some c →
        pySpace c = false) ∧
      sanitize_windows_name (sanitize_windows_name "a<>|b!  c..") =
        sanitize_windows_name "a<>|b!  c..") ∧
    sanitize_windows_name "a<>|b!  c.." ≠ "" :=
  ⟨⟨by decide, (C9_amended_sanitize_props "a<>|b!  c..").2.2.2.2 (by decide)⟩,
    (C9_amended_sanitize_props "a<>|b!  c..").1⟩


end DM
